import Mathlib

/-!
Verification of the streaming CSV cleaning and cross-chunk deduplication
engine of the repository (file src/Extract/Clean/Clean.py, together with the
null-value vocabulary declared in src/Config/Config.py).

The development shallowly embeds the engine:

* Python string helpers used by the code (str.strip, str.lower,
  str.replace on single characters) are modelled on lists of characters.
  Lower-casing is modelled on the ASCII letters, which is the alphabet the
  repository and its data use.
* A CSV cell after parsing is a tagged value: missing (NaN/NA/NaT), a text
  value, an integer value, or a date value.  pandas.read_csv converts every
  field that exactly matches one of its default NA tokens to NaN, and infers
  a numeric column dtype per chunk when every non-NA field of the column
  parses as a number (the model restricts numeric inference to integers;
  non-integer numerics play no role in any claim).
* clean_chunk is modelled column-wise exactly as the source: object (text)
  columns get astype(str), per-cell strip, and the replace map sending the
  strings "", "nan" and "None" to missing; columns whose lower-cased name
  contains the substring "date" are coerced cell-wise through a date parser,
  unparseable cells becoming missing (pandas.to_datetime with coerce).
  The date parser itself is a parameter of the model.
* The row fingerprint of the source is hash(tuple(row)), an unspecified
  function whose values land in the 64-bit signed range of the CPython
  Py_hash_t type; the engine is therefore parameterised by an arbitrary
  fingerprint function, and the range fact is kept as the predicate
  PyHashBounded.
* The output file is a list of lines, each line either a header line or a
  data row; the filesystem state of the output path is Option of that list,
  none meaning the path does not exist.  clean_csv is a fold of the
  per-chunk step over the list of chunks; main (the CLI entry point) is the
  remove-then-clean composition of the source.
-/

namespace CleanCsv

/-- Whitespace characters recognised by the Python method str.strip
(the ASCII whitespace set; the data never contains the rarer Unicode
spaces). -/
def pyIsSpace (c : Char) : Bool :=
  c = ' ' || c = '\t' || c = '\n' || c = '\r' || c = '\x0b' || c = '\x0c'

/-- Python str.strip on a list of characters: drop whitespace from the
front, then from the back. -/
def pyStripList (l : List Char) : List Char :=
  ((l.dropWhile pyIsSpace).reverse.dropWhile pyIsSpace).reverse

/-- Python str.strip. -/
def pyStrip (s : String) : String :=
  ⟨pyStripList s.data⟩

/-- Python str.lower on one character, on the ASCII alphabet: the 26
uppercase letters map to their lowercase forms, everything else is kept. -/
def pyLowerChar (c : Char) : Char :=
  if c = 'A' then 'a' else if c = 'B' then 'b' else if c = 'C' then 'c'
  else if c = 'D' then 'd' else if c = 'E' then 'e' else if c = 'F' then 'f'
  else if c = 'G' then 'g' else if c = 'H' then 'h' else if c = 'I' then 'i'
  else if c = 'J' then 'j' else if c = 'K' then 'k' else if c = 'L' then 'l'
  else if c = 'M' then 'm' else if c = 'N' then 'n' else if c = 'O' then 'o'
  else if c = 'P' then 'p' else if c = 'Q' then 'q' else if c = 'R' then 'r'
  else if c = 'S' then 's' else if c = 'T' then 't' else if c = 'U' then 'u'
  else if c = 'V' then 'v' else if c = 'W' then 'w' else if c = 'X' then 'x'
  else if c = 'Y' then 'y' else if c = 'Z' then 'z' else c

/-- Python str.lower. -/
def pyLower (s : String) : String :=
  ⟨s.data.map pyLowerChar⟩

/-- Python str.replace for a single-character pattern, on one character. -/
def replChar (a b c : Char) : Char :=
  if c = a then b else c

/-- Python str.replace for a single-character pattern, on a character
list. -/
def pyReplaceCharL (a b : Char) (l : List Char) : List Char :=
  l.map (replChar a b)

/-- normalize_column_name from Clean.py: strip, then lower, then replace
space with underscore, then replace newline with underscore. -/
def normalize_column_name (name : String) : String :=
  ⟨pyReplaceCharL '\n' '_' (pyReplaceCharL ' ' '_'
     ((pyStripList name.data).map pyLowerChar))⟩

/-- The ASCII uppercase alphabet. -/
def upperChars : List Char :=
  ['A','B','C','D','E','F','G','H','I','J','K','L','M',
   'N','O','P','Q','R','S','T','U','V','W','X','Y','Z']

/-- The composite per-character action of normalize_column_name after the
strip: lower-case, then space to underscore, then newline to underscore. -/
def normChar (c : Char) : Char :=
  replChar '\n' '_' (replChar ' ' '_' (pyLowerChar c))

/-- Both ends of a list are clear of the predicate. -/
def GoodEnds {α : Type} (p : α → Bool) (l : List α) : Prop :=
  (∀ a, l.head? = some a → p a = false) ∧
    (∀ a, l.getLast? = some a → p a = false)

/-! The data model: cells, the chunk reader, the record cleaner. -/

/-- A parsed CSV cell: the missing marker (NaN / pandas NA / NaT), a text
value, an integer value, or a date value (a date is represented by its
epoch ordinal; its arithmetic plays no role). -/
inductive Cell where
  | missing : Cell
  | str : String → Cell
  | intv : Int → Cell
  | datev : Int → Cell
deriving DecidableEq, Repr

/-- The default NA tokens of pandas.read_csv: a field exactly equal to one
of these strings is parsed as NaN (clean_csv calls read_csv without
na_values, so the default list applies). -/
def pandasNA : List String :=
  ["", "#N/A", "#N/A N/A", "#NA", "-1.#IND", "-1.#QNAN", "-NaN", "-nan",
   "1.#IND", "1.#QNAN", "<NA>", "N/A", "NA", "NULL", "NaN", "None",
   "n/a", "nan", "null"]

/-- NULL_VALUES from src/Config/Config.py line 130. -/
def NULL_VALUES : List String :=
  ["", "nan", "NaN", "NA", "N/A", "null", "NULL", "None"]

def isNAToken (s : String) : Bool := pandasNA.contains s

/-- Value of a digit string. -/
def digitsVal (l : List Char) : Nat :=
  l.foldl (fun a c => a * 10 + (c.toNat - 48)) 0

/-- Integer parsing as the pandas CSV tokenizer sees a numeric field:
surrounding whitespace is ignored, an optional minus sign, then digits.
(The model restricts the numeric dtypes of read_csv to integers; floats
play no role in any claim.) -/
def parseIntToken (s : String) : Option Int :=
  match pyStripList s.data with
  | [] => none
  | c :: rest =>
      if c = '-' then
        if !rest.isEmpty && rest.all Char.isDigit then
          some (-(digitsVal rest : Int))
        else none
      else
        if (c :: rest).all Char.isDigit then
          some ((digitsVal (c :: rest) : Int))
        else none

/-- A field that read_csv can place in a numeric column: an NA token or a
number. -/
def isNumOrNA (s : String) : Bool :=
  isNAToken s || (parseIntToken s).isSome

/-- Column j of a raw chunk. -/
def colFields (rows : List (List String)) (j : Nat) : List String :=
  rows.map (fun r => r.getD j "")

/-- Per-chunk dtype inference of read_csv: a column of the chunk is numeric
exactly when every field is an NA token or a number.  Each chunk of the
iterator is a fresh DataFrame, so the inference is repeated per chunk. -/
def colIsNumeric (rows : List (List String)) (j : Nat) : Bool :=
  (colFields rows j).all isNumOrNA

/-- Parsing of one field given the dtype of its column. -/
def readField (numeric : Bool) (s : String) : Cell :=
  if isNAToken s then Cell.missing
  else if numeric then Cell.intv ((parseIntToken s).getD 0)
  else Cell.str s

/-- read_csv on one chunk of raw rows (ncols columns). -/
def readChunk (ncols : Nat) (rows : List (List String)) :
    List (List Cell) :=
  rows.map (fun r =>
    List.zipWith readField ((List.range ncols).map (colIsNumeric rows)) r)

/-- str(value) as applied by astype(str) to a cell of an object column;
str of the float NaN is the string "nan". -/
def cellToPyStr : Cell → String
  | Cell.missing => "nan"
  | Cell.str s => s
  | Cell.intv n => toString n
  | Cell.datev d => toString d

/-- The per-cell text cleaning of clean_chunk on an object column:
astype(str), strip, then the replace map sending "", "nan" and "None" to
pandas NA (Clean.py lines 113-125). -/
def textCleanCell (c : Cell) : Cell :=
  let t := pyStrip (cellToPyStr c)
  if t = "" || t = "nan" || t = "None" then Cell.missing else Cell.str t

/-- select_dtypes(include=[object]): a column of the chunk is an object
column exactly when it holds at least one text cell. -/
def colHasStr (chunk : List (List Cell)) (j : Nat) : Bool :=
  chunk.any (fun r =>
    match r.getD j Cell.missing with
    | Cell.str _ => true
    | _ => false)

/-- Test of Clean.py line 130: the lower-cased column name contains the
substring "date". -/
def isDateName (name : String) : Bool :=
  decide (List.IsInfix "date".data (pyLower name).data)

/-- pandas.to_datetime with coerce on one cell, for a date parser dparse:
a missing cell stays missing, a text cell parses or becomes NaT (missing),
a numeric cell is interpreted as an epoch value, a date stays itself. -/
def toDatetimeCell (dparse : String → Option Int) : Cell → Cell
  | Cell.missing => Cell.missing
  | Cell.str s =>
      match dparse s with
      | some d => Cell.datev d
      | none => Cell.missing
  | Cell.intv n => Cell.datev n
  | Cell.datev d => Cell.datev d

/-- The date-column pass of clean_chunk on one cell (Clean.py lines
127-138). -/
def dateStepCell (dparse : String → Option Int) (name : String)
    (c : Cell) : Cell :=
  if isDateName name then toDatetimeCell dparse c else c

/-- clean_chunk from Clean.py: first the text cleaning of every object
column, then the to_datetime coercion of every column whose name contains
"date". -/
def clean_chunk (dparse : String → Option Int) (header : List String)
    (chunk : List (List Cell)) : List (List Cell) :=
  let objs := (List.range header.length).map (colHasStr chunk)
  let step1 := chunk.map (fun r =>
    List.zipWith (fun o c => if o then textCleanCell c else c) objs r)
  step1.map (fun r => List.zipWith (dateStepCell dparse) header r)

/-- One chunk of clean_csv up to the cleaning: read the raw rows with
read_csv, then clean them with clean_chunk under the normalized header. -/
def cleanRows (dparse : String → Option Int) (rawHeader : List String)
    (chunkRaw : List (List String)) : List (List Cell) :=
  clean_chunk dparse (rawHeader.map normalize_column_name)
    (readChunk rawHeader.length chunkRaw)

/-! The duplicate filter and writer. -/

/-- dropna(how="all"): a row is dropped when every cell is missing. -/
def rowAllMissing (r : List Cell) : Bool :=
  r.all (fun c => c = Cell.missing)

/-- drop_duplicates keeping the first occurrence, with an accumulator of
rows already kept or previously seen. -/
def dedupFirstAux (seen : List (List Cell)) :
    List (List Cell) → List (List Cell)
  | [] => []
  | r :: rs =>
      if r ∈ seen then dedupFirstAux seen rs
      else r :: dedupFirstAux (r :: seen) rs

/-- drop_duplicates() of pandas: keep the first occurrence of every row. -/
def dedupFirst (l : List (List Cell)) : List (List Cell) :=
  dedupFirstAux [] l

/-- The rows of one cleaned chunk that survive dropna(how="all") and the
intra-chunk drop_duplicates (Clean.py lines 202-206). -/
def survivors (chunk : List (List Cell)) : List (List Cell) :=
  dedupFirst (chunk.filter (fun r => !rowAllMissing r))

/-- One line of the output CSV file. -/
inductive OutLine where
  | headerLine : List String → OutLine
  | rowLine : List Cell → OutLine
deriving DecidableEq, Repr

/-- The run state of clean_csv: the seen_hashes index and the output path
state (none when the file does not exist). -/
structure EngineState where
  seen : List Int
  file : Option (List OutLine)
deriving DecidableEq, Repr

/-- The write of one batch (Clean.py lines 217-225): if the file exists
and overwrite is off, append without header; otherwise create the file
with a header when it does not exist, else append without header. -/
def writeChunkRows (overwrite : Bool) (normHeader : List String)
    (rows : List (List Cell)) (file : Option (List OutLine)) :
    List OutLine :=
  if file.isSome && !overwrite then
    file.getD [] ++ rows.map OutLine.rowLine
  else if file.isNone then
    OutLine.headerLine normHeader :: rows.map OutLine.rowLine
  else
    file.getD [] ++ rows.map OutLine.rowLine

/-- The mask of Clean.py line 211: the survivors of the chunk whose
fingerprint is not yet in the seen_hashes index. -/
def newsOf (fp : List Cell → Int) (st : EngineState)
    (chunk : List (List Cell)) : List (List Cell) :=
  (survivors chunk).filter (fun r => !decide (fp r ∈ st.seen))

/-- The per-chunk dedup-and-write step of clean_csv, on a cleaned chunk:
intra-chunk survivors, the global mask against seen_hashes, and the
guarded write plus index update (Clean.py lines 200-225). -/
def engineStep (fp : List Cell → Int) (overwrite : Bool)
    (normHeader : List String) (st : EngineState)
    (chunk : List (List Cell)) : EngineState :=
  let news := newsOf fp st chunk
  if news.isEmpty then st
  else
    { seen := news.map fp ++ st.seen,
      file := some (writeChunkRows overwrite normHeader news st.file) }

/-- The full per-chunk step of clean_csv on raw rows: normalize the header,
read and clean the chunk, then dedup and write. -/
def processChunk (fp : List Cell → Int) (dparse : String → Option Int)
    (overwrite : Bool) (rawHeader : List String) (st : EngineState)
    (chunkRaw : List (List String)) : EngineState :=
  engineStep fp overwrite (rawHeader.map normalize_column_name) st
    (cleanRows dparse rawHeader chunkRaw)

/-- The dedup-and-write loop over a list of already cleaned chunks. -/
def engineRun (fp : List Cell → Int) (overwrite : Bool)
    (normHeader : List String) (chunks : List (List (List Cell)))
    (init : EngineState) : EngineState :=
  chunks.foldl (engineStep fp overwrite normHeader) init

/-- clean_csv from Clean.py, as a function of the chunk decomposition the
reader produced: fold the per-chunk step over the chunks, starting from an
empty fingerprint index and the current state of the output path. -/
def clean_csv (fp : List Cell → Int) (dparse : String → Option Int)
    (overwrite : Bool) (rawHeader : List String)
    (chunks : List (List (List String)))
    (initFile : Option (List OutLine)) : EngineState :=
  chunks.foldl (processChunk fp dparse overwrite rawHeader)
    { seen := [], file := initFile }

/-- main from Clean.py: when the overwrite flag is set and the output path
exists, os.remove deletes it, then clean_csv runs (lines 242-246). -/
def mainClean (fp : List Cell → Int) (dparse : String → Option Int)
    (overwrite : Bool) (rawHeader : List String)
    (chunks : List (List (List String)))
    (existing : Option (List OutLine)) : EngineState :=
  let afterRemove :=
    if overwrite && existing.isSome then none else existing
  clean_csv fp dparse overwrite rawHeader chunks afterRemove

/-- The data rows of an output file. -/
def dataRowsOf : List OutLine → List (List Cell)
  | [] => []
  | OutLine.headerLine _ :: rest => dataRowsOf rest
  | OutLine.rowLine r :: rest => r :: dataRowsOf rest

/-- The data rows currently on the output path of a run state. -/
def writtenRows (st : EngineState) : List (List Cell) :=
  dataRowsOf (st.file.getD [])

/-- The number of header lines of an output file. -/
def countHeaderLines : List OutLine → Nat
  | [] => 0
  | OutLine.headerLine _ :: rest => countHeaderLines rest + 1
  | OutLine.rowLine _ :: rest => countHeaderLines rest

/-- to_csv rendering of one cell: missing cells serialize to the empty
field, text to itself, numbers and dates to their decimal form. -/
def csvCell : Cell → String
  | Cell.missing => ""
  | Cell.str s => s
  | Cell.intv n => toString n
  | Cell.datev d => toString d

/-- CPython hash values have the C type Py_hash_t, a 64-bit signed
integer; the row fingerprint hash(tuple(row)) of Clean.py line 210
therefore always lands in the interval [-2^63, 2^63). -/
def PyHashBounded (fp : List Cell → Int) : Prop :=
  ∀ r, -(2 ^ 63) ≤ fp r ∧ fp r < 2 ^ 63

/-- A sample numeric code of one cell, used to build a concrete stand-in
fingerprint function for witnesses. -/
def cellCode : Cell → Nat
  | Cell.missing => 0
  | Cell.str s => 1 + 4 * (s.data.foldl (fun a c => a * 1114112 + c.toNat) 0)
  | Cell.intv n => 2 + 4 * (2 * n.natAbs + (if 0 ≤ n then 0 else 1))
  | Cell.datev d => 3 + 4 * (2 * d.natAbs + (if 0 ≤ d then 0 else 1))

/-- A sample numeric code of one row. -/
def rowCode (r : List Cell) : Nat :=
  r.foldl (fun a c => (a + 1) * 2 ^ 64 + cellCode c) 0

/-- A concrete fingerprint function with the range of a CPython hash,
used to instantiate the engine in witnesses and counterexamples. -/
def demoHash (r : List Cell) : Int :=
  ((rowCode r % 2 ^ 63 : Nat) : Int)

/-- A date parser that accepts nothing; chunks without date columns never
consult it. -/
def noDateParse : String → Option Int := fun _ => none

/-- The clean_chunk call as the caller observes it under Python reference
semantics: the argument is a reference into a store of data frames, the
frame behind the reference is replaced by its cleaned version in place,
and the very same reference is returned (Clean.py lines 113-140 assign
into df and line 140 returns df itself). -/
def clean_chunk_ref (dparse : String → Option Int) (header : List String)
    (r : Nat) (store : List (List (List Cell))) :
    List (List (List Cell)) × Nat :=
  (store.set r (clean_chunk dparse header (store.getD r [])), r)

/-- A fresh-file invariant: the output path either still does not exist or
holds the normalized header line followed by data rows only. -/
def FreshShape (nh : List String) (st : EngineState) : Prop :=
  st.file = none ∨
    ∃ rs : List (List Cell),
      st.file = some (OutLine.headerLine nh :: rs.map OutLine.rowLine)

/-- An append-run invariant: the output path holds the pre-existing
content followed by data rows only. -/
def AppendShape (c : List OutLine) (st : EngineState) : Prop :=
  ∃ rs : List (List Cell),
    st.file = some (c ++ rs.map OutLine.rowLine)

/-- The seen_hashes index decides, at every point of a run started from an
empty index, exactly the fingerprints of the rows written so far. -/
def IndexMatches (fp : List Cell → Int) (st : EngineState) : Prop :=
  ∀ h, h ∈ st.seen ↔ ∃ r ∈ writtenRows st, fp r = h

/-- Every data row on the output file of a run state is not all-missing. -/
def WrittenClean (st : EngineState) : Prop :=
  ∀ r ∈ writtenRows st, rowAllMissing r = false

/-- A family of pairwise distinct single-cell rows. -/
def rowOfNat (n : Nat) : List Cell :=
  [Cell.str ⟨List.replicate n 'a'⟩]

/-! Helper lemmas about the character functions. -/

lemma pyLowerChar_eq_self (c : Char) (h : c ∉ upperChars) :
    pyLowerChar c = c := by
  simp only [upperChars, List.mem_cons, List.not_mem_nil, or_false,
    not_or] at h
  obtain ⟨h1, h2, h3, h4, h5, h6, h7, h8, h9, h10, h11, h12, h13, h14,
    h15, h16, h17, h18, h19, h20, h21, h22, h23, h24, h25, h26⟩ := h
  unfold pyLowerChar
  rw [if_neg h1, if_neg h2, if_neg h3, if_neg h4, if_neg h5, if_neg h6,
    if_neg h7, if_neg h8, if_neg h9, if_neg h10, if_neg h11, if_neg h12,
    if_neg h13, if_neg h14, if_neg h15, if_neg h16, if_neg h17, if_neg h18,
    if_neg h19, if_neg h20, if_neg h21, if_neg h22, if_neg h23, if_neg h24,
    if_neg h25, if_neg h26]

lemma pyLowerChar_of_upper (c : Char) (h : c ∈ upperChars) :
    pyLowerChar (pyLowerChar c) = pyLowerChar c ∧
      pyIsSpace (pyLowerChar c) = false ∧ pyIsSpace c = false ∧
      pyLowerChar c ≠ ' ' ∧ pyLowerChar c ≠ '\n' := by
  fin_cases h <;> exact ⟨rfl, rfl, rfl, by decide, by decide⟩

lemma pyLowerChar_idem (c : Char) :
    pyLowerChar (pyLowerChar c) = pyLowerChar c := by
  by_cases h : c ∈ upperChars
  · exact (pyLowerChar_of_upper c h).1
  · rw [pyLowerChar_eq_self c h, pyLowerChar_eq_self c h]

lemma pyIsSpace_pyLowerChar (c : Char) :
    pyIsSpace (pyLowerChar c) = pyIsSpace c := by
  by_cases h : c ∈ upperChars
  · rw [(pyLowerChar_of_upper c h).2.1, (pyLowerChar_of_upper c h).2.2.1]
  · rw [pyLowerChar_eq_self c h]

lemma normalize_eq_map (name : String) :
    normalize_column_name name = ⟨(pyStripList name.data).map normChar⟩ := by
  unfold normalize_column_name pyReplaceCharL normChar
  rw [List.map_map, List.map_map]
  rfl

lemma normChar_eq (c : Char) :
    normChar c = '_' ∨
      (normChar c = pyLowerChar c ∧ pyLowerChar c ≠ ' ' ∧
        pyLowerChar c ≠ '\n') := by
  unfold normChar replChar
  by_cases h1 : pyLowerChar c = ' '
  · left
    rw [if_pos h1]
    rfl
  · rw [if_neg h1]
    by_cases h2 : pyLowerChar c = '\n'
    · left
      rw [if_pos h2]
    · right
      rw [if_neg h2]
      exact ⟨rfl, h1, h2⟩

lemma normChar_underscore : normChar '_' = '_' := by decide

lemma normChar_idem (c : Char) : normChar (normChar c) = normChar c := by
  rcases normChar_eq c with h | ⟨h, h1, h2⟩
  · rw [h, normChar_underscore]
  · rw [h]
    unfold normChar replChar
    rw [pyLowerChar_idem, if_neg h1, if_neg h2]

lemma pyIsSpace_normChar (c : Char) (h : pyIsSpace (normChar c) = true) :
    pyIsSpace c = true := by
  rcases normChar_eq c with he | ⟨he, _, _⟩
  · rw [he] at h
    exact absurd h (by decide)
  · rw [he, pyIsSpace_pyLowerChar] at h
    exact h

/-! Generic lemmas about dropWhile and the two-sided strip. -/

lemma dropWhile_head?_false {α : Type} (p : α → Bool) (l : List α) (a : α)
    (h : (l.dropWhile p).head? = some a) : p a = false := by
  induction l with
  | nil => simp [List.dropWhile] at h
  | cons x xs ih =>
      by_cases hx : p x
      · rw [List.dropWhile_cons_of_pos hx] at h
        exact ih h
      · rw [List.dropWhile_cons_of_neg hx] at h
        simp only [List.head?_cons, Option.some.injEq] at h
        rw [← h]
        exact Bool.not_eq_true _ ▸ (by simpa using hx)

lemma dropWhile_eq_self_of_head {α : Type} (p : α → Bool) (l : List α)
    (h : ∀ a, l.head? = some a → p a = false) : l.dropWhile p = l := by
  cases l with
  | nil => rfl
  | cons x xs =>
      have hx : p x = false := h x rfl
      rw [List.dropWhile_cons_of_neg (by simp [hx])]

lemma dropWhile_getLast? {α : Type} (p : α → Bool) (l : List α)
    (h : l.dropWhile p ≠ []) : (l.dropWhile p).getLast? = l.getLast? := by
  induction l with
  | nil => simp [List.dropWhile] at h
  | cons x xs ih =>
      by_cases hx : p x
      · rw [List.dropWhile_cons_of_pos hx] at h ⊢
        cases xs with
        | nil => simp [List.dropWhile] at h
        | cons y ys =>
            rw [ih h, List.getLast?_cons_cons]
      · rw [List.dropWhile_cons_of_neg hx]

lemma reverse_getLast?_eq_head? {α : Type} (l : List α) :
    l.reverse.getLast? = l.head? := by
  have h1 := List.head?_reverse l.reverse
  rw [List.reverse_reverse] at h1
  exact h1.symm

lemma stripList_eq_self_of_goodEnds (l : List Char)
    (h : GoodEnds pyIsSpace l) : pyStripList l = l := by
  unfold pyStripList
  rw [dropWhile_eq_self_of_head pyIsSpace l h.1]
  rw [dropWhile_eq_self_of_head pyIsSpace l.reverse
    (fun a ha => h.2 a ((List.head?_reverse l) ▸ ha))]
  exact List.reverse_reverse l

lemma goodEnds_stripList (l : List Char) :
    GoodEnds pyIsSpace (pyStripList l) := by
  unfold pyStripList
  constructor
  · intro a ha
    rw [List.head?_reverse] at ha
    have hne : (l.dropWhile pyIsSpace).reverse.dropWhile pyIsSpace ≠ [] := by
      intro hcon
      rw [hcon] at ha
      simp at ha
    rw [dropWhile_getLast? pyIsSpace _ hne,
      reverse_getLast?_eq_head?] at ha
    exact dropWhile_head?_false pyIsSpace l a ha
  · intro a ha
    rw [reverse_getLast?_eq_head?] at ha
    exact dropWhile_head?_false pyIsSpace _ a ha

lemma goodEnds_map_normChar (l : List Char)
    (h : GoodEnds pyIsSpace l) : GoodEnds pyIsSpace (l.map normChar) := by
  constructor
  · intro a ha
    rw [List.head?_map] at ha
    cases hh : l.head? with
    | none => rw [hh] at ha; simp at ha
    | some b =>
        rw [hh] at ha
        have ha2 : normChar b = a := by simpa using ha
        have hb := h.1 b hh
        rw [← ha2]
        by_contra hcon
        have : pyIsSpace (normChar b) = true := by
          revert hcon
          cases pyIsSpace (normChar b) <;> simp
        exact absurd (pyIsSpace_normChar b this) (by simp [hb])
  · intro a ha
    rw [List.getLast?_map] at ha
    cases hh : l.getLast? with
    | none => rw [hh] at ha; simp at ha
    | some b =>
        rw [hh] at ha
        have ha2 : normChar b = a := by simpa using ha
        have hb := h.2 b hh
        rw [← ha2]
        by_contra hcon
        have : pyIsSpace (normChar b) = true := by
          revert hcon
          cases pyIsSpace (normChar b) <;> simp
        exact absurd (pyIsSpace_normChar b this) (by simp [hb])

/-! Lemmas about the output file and the per-chunk step. -/

lemma dataRowsOf_append (a b : List OutLine) :
    dataRowsOf (a ++ b) = dataRowsOf a ++ dataRowsOf b := by
  induction a with
  | nil => rfl
  | cons x rest ih =>
      cases x with
      | headerLine hs => simpa [dataRowsOf] using ih
      | rowLine r => simpa [dataRowsOf] using ih

lemma dataRowsOf_map_rowLine (l : List (List Cell)) :
    dataRowsOf (l.map OutLine.rowLine) = l := by
  induction l with
  | nil => rfl
  | cons x rest ih => simpa [dataRowsOf] using ih

lemma dataRowsOf_writeChunkRows (ov : Bool) (nh : List String)
    (rows : List (List Cell)) (file : Option (List OutLine)) :
    dataRowsOf (writeChunkRows ov nh rows file) =
      dataRowsOf (file.getD []) ++ rows := by
  unfold writeChunkRows
  cases file with
  | none =>
      simp [dataRowsOf, dataRowsOf_map_rowLine]
  | some content =>
      cases ov <;>
        simp [dataRowsOf_append, dataRowsOf_map_rowLine]

lemma engineStep_writtenRows (fp : List Cell → Int) (ov : Bool)
    (nh : List String) (st : EngineState) (chunk : List (List Cell)) :
    writtenRows (engineStep fp ov nh st chunk) =
      writtenRows st ++ newsOf fp st chunk := by
  unfold engineStep
  by_cases h : (newsOf fp st chunk).isEmpty
  · rw [if_pos h]
    rw [List.isEmpty_iff] at h
    rw [h, List.append_nil]
  · rw [if_neg h]
    unfold writtenRows
    simp only [Option.getD_some]
    exact dataRowsOf_writeChunkRows ov nh (newsOf fp st chunk) st.file

lemma engineStep_seen_mem (fp : List Cell → Int) (ov : Bool)
    (nh : List String) (st : EngineState) (chunk : List (List Cell))
    (h : Int) :
    h ∈ (engineStep fp ov nh st chunk).seen ↔
      h ∈ (newsOf fp st chunk).map fp ∨ h ∈ st.seen := by
  unfold engineStep
  by_cases he : (newsOf fp st chunk).isEmpty
  · rw [if_pos he]
    rw [List.isEmpty_iff] at he
    simp [he]
  · rw [if_neg he]
    simp

lemma foldl_invariant {α β : Type} (f : α → β → α) (P : α → Prop)
    (hstep : ∀ a b, P a → P (f a b)) :
    ∀ (l : List β) (a : α), P a → P (l.foldl f a) := by
  intro l
  induction l with
  | nil => intro a ha; exact ha
  | cons x xs ih => intro a ha; exact ih (f a x) (hstep a x ha)

lemma engineStep_freshShape (fp : List Cell → Int) (ov : Bool)
    (nh : List String) (st : EngineState) (chunk : List (List Cell))
    (h : FreshShape nh st) :
    FreshShape nh (engineStep fp ov nh st chunk) := by
  unfold engineStep
  by_cases he : (newsOf fp st chunk).isEmpty
  · rw [if_pos he]; exact h
  · rw [if_neg he]
    rcases h with h | ⟨rs, h⟩
    · right
      refine ⟨newsOf fp st chunk, ?_⟩
      simp only []
      unfold writeChunkRows
      rw [h]
      simp
    · right
      refine ⟨rs ++ newsOf fp st chunk, ?_⟩
      simp only []
      unfold writeChunkRows
      rw [h]
      cases ov <;> simp [List.map_append]

lemma engineStep_appendShape (fp : List Cell → Int) (ov : Bool)
    (nh : List String) (c : List OutLine) (st : EngineState)
    (chunk : List (List Cell)) (h : AppendShape c st) :
    AppendShape c (engineStep fp ov nh st chunk) := by
  unfold engineStep
  by_cases he : (newsOf fp st chunk).isEmpty
  · rw [if_pos he]; exact h
  · rw [if_neg he]
    rcases h with ⟨rs, h⟩
    refine ⟨rs ++ newsOf fp st chunk, ?_⟩
    simp only []
    unfold writeChunkRows
    rw [h]
    cases ov <;> simp [List.map_append]

/-! Lemmas about first-occurrence deduplication. -/

lemma mem_dedupFirstAux (r : List Cell) :
    ∀ (l s : List (List Cell)),
      r ∈ dedupFirstAux s l ↔ r ∈ l ∧ r ∉ s := by
  intro l
  induction l with
  | nil => intro s; simp [dedupFirstAux]
  | cons x xs ih =>
      intro s
      by_cases hx : x ∈ s
      · rw [dedupFirstAux, if_pos hx, ih s]
        constructor
        · rintro ⟨h1, h2⟩
          exact ⟨List.mem_cons_of_mem x h1, h2⟩
        · rintro ⟨h1, h2⟩
          rcases List.mem_cons.mp h1 with h | h
          · exact absurd (h ▸ hx) h2
          · exact ⟨h, h2⟩
      · rw [dedupFirstAux, if_neg hx, List.mem_cons, ih (x :: s),
          List.mem_cons, List.mem_cons]
        by_cases hrx : r = x
        · subst hrx
          simp [hx]
        · tauto

lemma dedupFirstAux_congr :
    ∀ (l s1 s2 : List (List Cell)), (∀ r, r ∈ s1 ↔ r ∈ s2) →
      dedupFirstAux s1 l = dedupFirstAux s2 l := by
  intro l
  induction l with
  | nil => intro s1 s2 _; rfl
  | cons x xs ih =>
      intro s1 s2 h
      by_cases hx : x ∈ s1
      · rw [dedupFirstAux, if_pos hx, dedupFirstAux, if_pos ((h x).mp hx)]
        exact ih s1 s2 h
      · rw [dedupFirstAux, if_neg hx, dedupFirstAux,
          if_neg (fun hc => hx ((h x).mpr hc))]
        refine congrArg (x :: ·) (ih (x :: s1) (x :: s2) ?_)
        intro r
        rw [List.mem_cons, List.mem_cons, h r]

lemma dedupFirstAux_append (b : List (List Cell)) :
    ∀ (a s : List (List Cell)),
      dedupFirstAux s (a ++ b) =
        dedupFirstAux s a ++ dedupFirstAux (a ++ s) b := by
  intro a
  induction a with
  | nil => intro s; rfl
  | cons x xs ih =>
      intro s
      by_cases hx : x ∈ s
      · rw [List.cons_append, dedupFirstAux, if_pos hx, dedupFirstAux,
          if_pos hx, ih s]
        refine congrArg _ (dedupFirstAux_congr b (xs ++ s) (x :: xs ++ s) ?_)
        intro r
        constructor
        · exact List.mem_cons_of_mem x
        · intro h
          rcases List.mem_cons.mp h with h | h
          · subst h; exact List.mem_append_right xs hx
          · exact h
      · rw [List.cons_append, dedupFirstAux, if_neg hx, dedupFirstAux,
          if_neg hx, ih (x :: s), List.cons_append]
        refine congrArg (x :: ·) (congrArg _ ?_)
        exact dedupFirstAux_congr b (xs ++ x :: s) (x :: xs ++ s)
          (fun r => by
            simp only [List.cons_append, List.mem_cons, List.mem_append]
            tauto)

lemma filter_dedupFirstAux (Q : List Cell → Bool)
    (ws : List (List Cell)) :
    ∀ (l s : List (List Cell)), (∀ r ∈ l, (Q r = true ↔ r ∈ ws)) →
      (dedupFirstAux s l).filter (fun r => !Q r) =
        dedupFirstAux (s ++ ws) l := by
  intro l
  induction l with
  | nil => intro s _; rfl
  | cons x xs ih =>
      intro s hQ
      have hQx := hQ x (List.mem_cons_self x xs)
      have hQxs : ∀ r ∈ xs, (Q r = true ↔ r ∈ ws) :=
        fun r hr => hQ r (List.mem_cons_of_mem x hr)
      by_cases hx : x ∈ s
      · rw [dedupFirstAux, if_pos hx, dedupFirstAux,
          if_pos (List.mem_append_left ws hx)]
        exact ih s hQxs
      · rw [dedupFirstAux, if_neg hx]
        by_cases hq : Q x = true
        · have hxw : x ∈ ws := hQx.mp hq
          rw [dedupFirstAux, if_pos (List.mem_append_right s hxw),
            List.filter_cons]
          rw [hq]
          simp only [Bool.not_true, Bool.false_eq_true, if_false]
          rw [ih (x :: s) hQxs]
          exact dedupFirstAux_congr xs (x :: s ++ ws) (s ++ ws)
            (fun r => by
              simp only [List.cons_append, List.mem_cons, List.mem_append]
              constructor
              · rintro (h | h | h)
                · subst h; exact Or.inr hxw
                · exact Or.inl h
                · exact Or.inr h
              · rintro (h | h)
                · exact Or.inr (Or.inl h)
                · exact Or.inr (Or.inr h))
        · have hxw : x ∉ ws := fun hc => hq (hQx.mpr hc)
          have hxsw : x ∉ s ++ ws := by
            rw [List.mem_append]
            rintro (h | h)
            · exact hx h
            · exact hxw h
          rw [dedupFirstAux, if_neg hxsw, List.filter_cons]
          have hq2 : (!Q x) = true := by
            cases hqx : Q x
            · rfl
            · exact absurd hqx hq
          rw [hq2]
          simp only [if_true]
          rw [ih (x :: s) hQxs]
          rfl

lemma mem_survivors_not_allMissing (r : List Cell)
    (c : List (List Cell)) (h : r ∈ survivors c) :
    rowAllMissing r = false := by
  unfold survivors dedupFirst at h
  rcases (mem_dedupFirstAux r _ []).mp h with ⟨h1, _⟩
  rcases List.mem_filter.mp h1 with ⟨_, h2⟩
  cases hr : rowAllMissing r
  · rfl
  · rw [hr] at h2
    simp at h2

lemma flatten_map_filter (p : List Cell → Bool)
    (cs : List (List (List Cell))) :
    (cs.map (fun c => c.filter p)).flatten = cs.flatten.filter p := by
  induction cs with
  | nil => rfl
  | cons c rest ih =>
      rw [List.map_cons, List.flatten_cons, List.flatten_cons,
        List.filter_append, ih]

lemma mem_survivors (r : List Cell) (c : List (List Cell)) :
    r ∈ survivors c ↔ r ∈ c ∧ rowAllMissing r = false := by
  unfold survivors dedupFirst
  rw [mem_dedupFirstAux, List.mem_filter]
  simp

lemma mem_newsOf (fp : List Cell → Int) (st : EngineState)
    (c : List (List Cell)) (r : List Cell) :
    r ∈ newsOf fp st c ↔ r ∈ survivors c ∧ fp r ∉ st.seen := by
  unfold newsOf
  rw [List.mem_filter]
  simp

lemma engineStep_nil (fp : List Cell → Int) (ov : Bool)
    (nh : List String) (st : EngineState) :
    engineStep fp ov nh st [] = st := rfl

/-- The central characterization: starting from a state whose index decides
membership in the rows written so far, and assuming the fingerprint is
collision-free on a superset T0 of everything involved, the dedup loop
appends exactly the first global occurrences of the not-all-missing rows
of the concatenated chunks. -/
lemma engineRun_written_core (fp : List Cell → Int) (ov : Bool)
    (nh : List String) :
    ∀ (chunks : List (List (List Cell))) (st : EngineState)
      (ws T0 : List (List Cell)),
      writtenRows st = ws →
      (∀ r ∈ ws, r ∈ T0) →
      (∀ r ∈ chunks.flatten, r ∈ T0) →
      (∀ r1 ∈ T0, ∀ r2 ∈ T0, fp r1 = fp r2 → r1 = r2) →
      (∀ r ∈ chunks.flatten, (fp r ∈ st.seen ↔ r ∈ ws)) →
      writtenRows (engineRun fp ov nh chunks st) =
        ws ++ dedupFirstAux ws
          ((chunks.map (fun c => c.filter (fun r => !rowAllMissing r))).flatten) := by
  intro chunks
  induction chunks with
  | nil =>
      intro st ws T0 hw _ _ _ _
      simpa [engineRun, dedupFirstAux] using hw
  | cons c cs ih =>
      intro st ws T0 hw hwsub hTsub hinj hseen
      have hcT : ∀ r ∈ c, r ∈ T0 := fun r hr =>
        hTsub r (by rw [List.flatten_cons]; exact List.mem_append_left _ hr)
      have hcsT : ∀ r ∈ cs.flatten, r ∈ T0 := fun r hr =>
        hTsub r (by rw [List.flatten_cons]; exact List.mem_append_right _ hr)
      have hseenc : ∀ r ∈ c, (fp r ∈ st.seen ↔ r ∈ ws) := fun r hr =>
        hseen r (by rw [List.flatten_cons]; exact List.mem_append_left _ hr)
      have hseencs : ∀ r ∈ cs.flatten, (fp r ∈ st.seen ↔ r ∈ ws) :=
        fun r hr =>
          hseen r (by rw [List.flatten_cons]; exact List.mem_append_right _ hr)
      set F := c.filter (fun r => !rowAllMissing r) with hF
      set N := newsOf fp st c with hN
      have hNF : N = dedupFirstAux ws F := by
        rw [hN]
        unfold newsOf survivors dedupFirst
        rw [← hF]
        have := filter_dedupFirstAux (fun r => decide (fp r ∈ st.seen)) ws F []
          (fun r hr => by
            rw [decide_eq_true_iff]
            exact hseenc r (List.mem_filter.mp hr).1)
        simpa using this
      have hNsub : ∀ r ∈ N, r ∈ c ∧ rowAllMissing r = false := by
        intro r hr
        exact (mem_survivors r c).mp ((mem_newsOf fp st c r).mp hr).1
      have hrun : engineRun fp ov nh (c :: cs) st =
          engineRun fp ov nh cs (engineStep fp ov nh st c) := rfl
      rw [hrun]
      have hws' : writtenRows (engineStep fp ov nh st c) = ws ++ N := by
        rw [engineStep_writtenRows, hw, hN]
      have hwsub' : ∀ r ∈ ws ++ N, r ∈ T0 := by
        intro r hr
        rcases List.mem_append.mp hr with hr | hr
        · exact hwsub r hr
        · exact hcT r (hNsub r hr).1
      have hseen' : ∀ r ∈ cs.flatten,
          (fp r ∈ (engineStep fp ov nh st c).seen ↔ r ∈ ws ++ N) := by
        intro r hr
        rw [engineStep_seen_mem, ← hN, List.mem_append]
        constructor
        · rintro (hmap | hold)
          · rcases List.mem_map.mp hmap with ⟨r2, hr2, heq⟩
            have : r2 = r :=
              hinj r2 (hcT r2 (hNsub r2 hr2).1) r (hcsT r hr) heq
            exact Or.inr (this ▸ hr2)
          · exact Or.inl ((hseencs r hr).mp hold)
        · rintro (hws | hn)
          · exact Or.inr ((hseencs r hr).mpr hws)
          · exact Or.inl (List.mem_map.mpr ⟨r, hn, rfl⟩)
      have hres := ih (engineStep fp ov nh st c) (ws ++ N) T0 hws' hwsub'
        hcsT hinj hseen'
      rw [hres]
      rw [List.map_cons, List.flatten_cons, ← hF]
      rw [dedupFirstAux_append]
      rw [← hNF]
      rw [List.append_assoc]
      refine congrArg (ws ++ ·) (congrArg (N ++ ·) ?_)
      refine dedupFirstAux_congr _ (ws ++ N) (F ++ ws) ?_
      intro r
      rw [List.mem_append, List.mem_append, hNF, mem_dedupFirstAux]
      tauto

lemma engineStep_indexMatches (fp : List Cell → Int) (ov : Bool)
    (nh : List String) (st : EngineState) (chunk : List (List Cell))
    (h : IndexMatches fp st) :
    IndexMatches fp (engineStep fp ov nh st chunk) := by
  intro v
  rw [engineStep_seen_mem, engineStep_writtenRows]
  constructor
  · rintro (hv | hv)
    · rcases List.mem_map.mp hv with ⟨r, hr, heq⟩
      exact ⟨r, List.mem_append_right _ hr, heq⟩
    · rcases (h v).mp hv with ⟨r, hr, heq⟩
      exact ⟨r, List.mem_append_left _ hr, heq⟩
  · rintro ⟨r, hr, heq⟩
    rcases List.mem_append.mp hr with hr | hr
    · exact Or.inr ((h v).mpr ⟨r, hr, heq⟩)
    · exact Or.inl (List.mem_map.mpr ⟨r, hr, heq⟩)

lemma engineStep_writtenClean (fp : List Cell → Int) (ov : Bool)
    (nh : List String) (st : EngineState) (chunk : List (List Cell))
    (h : WrittenClean st) :
    WrittenClean (engineStep fp ov nh st chunk) := by
  intro r hr
  rw [engineStep_writtenRows] at hr
  rcases List.mem_append.mp hr with hr | hr
  · exact h r hr
  · exact mem_survivors_not_allMissing r chunk
      ((mem_newsOf fp st chunk r).mp hr).1

/-- clean_csv is the cleaned-chunk loop applied to the cleaned chunks. -/
lemma clean_csv_eq_engineRun (fp : List Cell → Int)
    (dp : String → Option Int) (ov : Bool) (rh : List String)
    (chunks : List (List (List String))) (initFile : Option (List OutLine)) :
    clean_csv fp dp ov rh chunks initFile =
      engineRun fp ov (rh.map normalize_column_name)
        (chunks.map (cleanRows dp rh)) { seen := [], file := initFile } := by
  unfold clean_csv engineRun processChunk
  rw [List.foldl_map]

lemma cleanRows_nil (dp : String → Option Int) (rh : List String) :
    cleanRows dp rh [] = [] := rfl

/-- One more batch of a run is one engineStep on the cleaned batch (or a
no-op step past the end of the input). -/
lemma clean_csv_take_succ (fp : List Cell → Int)
    (dp : String → Option Int) (ov : Bool) (rh : List String)
    (chunks : List (List (List String))) (initFile : Option (List OutLine))
    (i : Nat) :
    clean_csv fp dp ov rh (chunks.take (i + 1)) initFile =
      engineStep fp ov (rh.map normalize_column_name)
        (clean_csv fp dp ov rh (chunks.take i) initFile)
        (cleanRows dp rh (chunks.getD i [])) := by
  unfold clean_csv
  rw [List.take_succ, List.foldl_append]
  rw [List.getD_eq_getElem?_getD]
  by_cases hi : i < chunks.length
  · rw [List.getElem?_eq_getElem hi]
    rfl
  · rw [List.getElem?_eq_none (Nat.le_of_not_lt hi)]
    show _ = engineStep _ _ _ _ (cleanRows dp rh [])
    rw [cleanRows_nil, engineStep_nil]
    rfl

/-! Helpers for the fingerprint range argument. -/

lemma rowOfNat_inj (n m : Nat) (h : rowOfNat n = rowOfNat m) : n = m := by
  unfold rowOfNat at h
  simp only [List.cons.injEq, Cell.str.injEq, and_true] at h
  have h2 := congrArg String.data h
  have h3 := congrArg List.length h2
  simpa using h3

/-- Any fingerprint function with the range of a CPython hash collides on
two distinct rows: there are more rows than 64-bit hash values. -/
lemma bounded_has_collision (fp : List Cell → Int)
    (hb : PyHashBounded fp) :
    ∃ r1 r2 : List Cell, r1 ≠ r2 ∧ fp r1 = fp r2 := by
  classical
  have hmaps : ∀ n ∈ Finset.range (2 ^ 64 + 1),
      fp (rowOfNat n) ∈ Finset.Icc (-(2 ^ 63) : ℤ) (2 ^ 63 - 1) := by
    intro n _
    refine Finset.mem_Icc.mpr ⟨(hb (rowOfNat n)).1, ?_⟩
    have := (hb (rowOfNat n)).2
    omega
  have hcard : (Finset.Icc (-(2 ^ 63) : ℤ) (2 ^ 63 - 1)).card <
      (Finset.range (2 ^ 64 + 1)).card := by
    rw [Int.card_Icc, Finset.card_range]
    norm_num
  obtain ⟨n, _, m, _, hnm, heq⟩ :=
    Finset.exists_ne_map_eq_of_card_lt_of_maps_to hcard hmaps
  exact ⟨rowOfNat n, rowOfNat m,
    fun hc => hnm (rowOfNat_inj n m hc), heq⟩

lemma demoHash_bounded : PyHashBounded demoHash := by
  intro r
  unfold demoHash
  constructor
  · have h0 : (0 : ℤ) ≤ ((rowCode r % 2 ^ 63 : ℕ) : ℤ) := Int.ofNat_nonneg _
    have h1 : (0 : ℤ) < 2 ^ 63 := by norm_num
    linarith
  · have h2 : rowCode r % 2 ^ 63 < 2 ^ 63 :=
      Nat.mod_lt _ (by norm_num)
    exact_mod_cast h2

lemma countHeaderLines_map_rowLine (l : List (List Cell)) :
    countHeaderLines (l.map OutLine.rowLine) = 0 := by
  induction l with
  | nil => rfl
  | cons x rest ih => simpa [countHeaderLines] using ih

/-! The claims. -/

/-- C9: the column-name normalizer is idempotent: for every header string
h, normalize_column_name (normalize_column_name h) equals
normalize_column_name h. -/
theorem normalize_column_name_idempotent (h : String) :
    normalize_column_name (normalize_column_name h) =
      normalize_column_name h := by
  have hmaps : ∀ m : List Char, (m.map normChar).map normChar =
      m.map normChar := by
    intro m
    induction m with
    | nil => rfl
    | cons x xs ih => simp [normChar_idem, ih]
  have key : ∀ l : List Char,
      (pyStripList ((pyStripList l).map normChar)).map normChar =
        (pyStripList l).map normChar := by
    intro l
    rw [stripList_eq_self_of_goodEnds _
      (goodEnds_map_normChar _ (goodEnds_stripList l))]
    exact hmaps (pyStripList l)
  rw [normalize_eq_map h, normalize_eq_map]
  exact congrArg (fun l => (⟨l⟩ : String)) (key h.data)

/-- C4 counterexample: the claim that rows differing in at least one cell
always get different fingerprints is false for the fingerprint of the
code: hash(tuple(row)) takes values in the 64-bit signed Py_hash_t range,
and no function into that range is injective on the infinitely many
possible rows — every such function collides on two distinct rows. -/
theorem fingerprint_not_injective :
    ¬ ∃ fp : List Cell → Int, PyHashBounded fp ∧
        ∀ r1 r2 : List Cell, r1 ≠ r2 → fp r1 ≠ fp r2 := by
  rintro ⟨fp, hb, hinj⟩
  obtain ⟨r1, r2, hne, heq⟩ := bounded_has_collision fp hb
  exact hinj r1 r2 hne heq

/-- C4 amended: rows with identical cell values in identical column order
always get identical fingerprints (the fingerprint is a function of the
ordered cell tuple); but distinct rows are distinguished only with high
probability, not always: every fingerprint function within the 64-bit
CPython hash range collides on some pair of distinct rows. -/
theorem fingerprint_deterministic_but_collides :
    (∀ (fp : List Cell → Int) (r1 r2 : List Cell),
        r1 = r2 → fp r1 = fp r2) ∧
      (∀ fp : List Cell → Int, PyHashBounded fp →
        ∃ r1 r2 : List Cell, r1 ≠ r2 ∧ fp r1 = fp r2) :=
  ⟨fun fp _ _ h => congrArg fp h,
   fun fp hb => bounded_has_collision fp hb⟩

/-- C4 witness: the sample bounded fingerprint function satisfies the
hypothesis of the amended claim, so it collides on two distinct rows. -/
theorem fingerprint_deterministic_but_collides_witness :
    PyHashBounded demoHash ∧
      ∃ r1 r2 : List Cell, r1 ≠ r2 ∧ demoHash r1 = demoHash r2 :=
  ⟨demoHash_bounded,
   fingerprint_deterministic_but_collides.2 demoHash demoHash_bounded⟩

/-- C2 counterexample: the cell " NA " of a textual column has trimmed
value "NA", one of the eight null tokens, yet after cleaning the cell
holds the literal string "NA", not the missing marker: read_csv only
matches NA tokens exactly, and the replace map of clean_chunk only covers
"", "nan" and "None" after trimming. -/
theorem null_canonicalization_counterexample :
    NULL_VALUES.contains (pyStrip " NA ") = true ∧
      cleanRows noDateParse ["county"] [[" NA "]] = [[Cell.str "NA"]] ∧
      Cell.str "NA" ≠ Cell.missing := by decide

/-- C2 amended: a cell whose exact (untrimmed) value is one of the eight
null tokens is read as missing by read_csv and stays missing through the
text cleaning and the date coercion; in addition, a textual cell whose
trimmed value is "", "nan" or "None" becomes missing during the text
cleaning.  Trimmed-but-not-exact occurrences of the remaining five tokens
survive as literal strings (see the counterexample). -/
theorem null_canonicalization_amended :
    (∀ s ∈ NULL_VALUES, ∀ numeric, readField numeric s = Cell.missing) ∧
      textCleanCell Cell.missing = Cell.missing ∧
      (∀ dp, toDatetimeCell dp Cell.missing = Cell.missing) ∧
      (∀ s, pyStrip s = "" ∨ pyStrip s = "nan" ∨ pyStrip s = "None" →
        textCleanCell (Cell.str s) = Cell.missing) := by
  refine ⟨?_, rfl, fun _ => rfl, ?_⟩
  · intro s hs numeric
    have hall : NULL_VALUES.all isNAToken = true := by decide
    have hna : isNAToken s = true := List.all_eq_true.mp hall s hs
    unfold readField
    rw [if_pos hna]
  · intro s hs
    rcases hs with h | h | h <;> simp [textCleanCell, cellToPyStr, h]

/-- C2 witness: the exact token "NaN" is read as missing, and the padded
token "  nan " is trimmed to "nan" and canonicalized to missing. -/
theorem null_canonicalization_amended_witness :
    ("NaN" ∈ NULL_VALUES ∧ readField false "NaN" = Cell.missing) ∧
      (pyStrip "  nan " = "nan" ∧
        textCleanCell (Cell.str "  nan ") = Cell.missing) :=
  ⟨⟨by decide, null_canonicalization_amended.1 "NaN" (by decide) false⟩,
   ⟨by decide, null_canonicalization_amended.2.2.2 "  nan "
      (Or.inr (Or.inl (by decide)))⟩⟩

/-- C7: in a column whose canonical name contains the substring "date", a
text cell the date parser rejects becomes the missing marker; a column
whose name does not contain "date" is untouched by the date pass; and the
pass is per-cell and total — clean_chunk returns exactly one cleaned row
per input row, so a parse failure never aborts the batch or the run. -/
theorem date_parse_failure_per_cell :
    (∀ (dp : String → Option Int) (name s : String),
        isDateName name = true → dp s = none →
        dateStepCell dp name (Cell.str s) = Cell.missing) ∧
      (∀ (dp : String → Option Int) (name : String) (c : Cell),
        isDateName name = false → dateStepCell dp name c = c) ∧
      (∀ (dp : String → Option Int) (header : List String)
          (chunk : List (List Cell)),
        (clean_chunk dp header chunk).length = chunk.length) := by
  refine ⟨?_, ?_, ?_⟩
  · intro dp name s hd hp
    unfold dateStepCell
    rw [if_pos hd]
    simp [toDatetimeCell, hp]
  · intro dp name c hd
    unfold dateStepCell
    simp [hd]
  · intro dp header chunk
    simp [clean_chunk]

/-- C7 witness: in the date column "date" the unparseable cell
"2021-13-45" becomes missing, the non-date column "county" keeps its
cell, and a one-row batch stays a one-row batch. -/
theorem date_parse_failure_per_cell_witness :
    (isDateName "date" = true ∧ noDateParse "2021-13-45" = none ∧
        dateStepCell noDateParse "date" (Cell.str "2021-13-45") =
          Cell.missing) ∧
      (isDateName "county" = false ∧
        dateStepCell noDateParse "county" (Cell.str "x") = Cell.str "x") ∧
      (clean_chunk noDateParse ["date"] [[Cell.str "bad"]]).length = 1 :=
  ⟨⟨by decide, rfl,
    date_parse_failure_per_cell.1 noDateParse "date" "2021-13-45"
      (by decide) rfl⟩,
   ⟨by decide,
    date_parse_failure_per_cell.2.1 noDateParse "county" (Cell.str "x")
      (by decide)⟩,
   date_parse_failure_per_cell.2.2 noDateParse ["date"] [[Cell.str "bad"]]⟩

/-- C10: clean_chunk as the caller observes it under Python reference
semantics is an in-place update: it returns the very reference it was
given, the store afterwards holds the cleaned frame at that reference (so
the pre-call batch is no longer reachable through the argument), every
other reference is untouched, and on a sample batch the cleaned frame
really differs from the original (object cells are stringified and
trimmed). -/
theorem clean_chunk_mutates_in_place :
    (∀ (dp : String → Option Int) (header : List String) (r : Nat)
        (store : List (List (List Cell))),
      (clean_chunk_ref dp header r store).2 = r ∧
        (clean_chunk_ref dp header r store).1 =
          store.set r (clean_chunk dp header (store.getD r [])) ∧
        (∀ j, j ≠ r →
          (clean_chunk_ref dp header r store).1.getD j [] =
            store.getD j []) ∧
        (r < store.length →
          (clean_chunk_ref dp header r store).1.getD r [] =
            clean_chunk dp header (store.getD r []))) ∧
      clean_chunk noDateParse ["a"] [[Cell.str " x "]] =
        [[Cell.str "x"]] ∧
      [[Cell.str " x "]] ≠ [[Cell.str "x"]] := by
  refine ⟨?_, by decide, by decide⟩
  intro dp header r store
  refine ⟨rfl, rfl, ?_, ?_⟩
  · intro j hj
    show (store.set r _).getD j [] = store.getD j []
    rw [List.getD_eq_getElem?_getD, List.getD_eq_getElem?_getD,
      List.getElem?_set_ne (fun hc => hj hc.symm),
      List.getD_eq_getElem?_getD]
  · intro hr
    show (store.set r _).getD r [] = _
    rw [List.getD_eq_getElem?_getD,
      List.getElem?_set_self (by simpa using hr)]
    rfl

/-- C10 witness: cleaning the frame stored at reference 0 leaves the frame
at reference 1 untouched and returns reference 0. -/
theorem clean_chunk_mutates_in_place_witness :
    (clean_chunk_ref noDateParse ["a"] 0
        [[[Cell.str " x "]], [[Cell.str "y"]]]).1.getD 1 [] =
      [[Cell.str "y"]] ∧
      (clean_chunk_ref noDateParse ["a"] 0
        [[[Cell.str " x "]], [[Cell.str "y"]]]).2 = 0 :=
  ⟨(clean_chunk_mutates_in_place.1 noDateParse ["a"] 0
      [[[Cell.str " x "]], [[Cell.str "y"]]]).2.2.1 1 (by decide),
   (clean_chunk_mutates_in_place.1 noDateParse ["a"] 0
      [[[Cell.str " x "]], [[Cell.str "y"]]]).1⟩

/-- C1 counterexample: the raw row ["1"] appears twice among the three
input rows, split in batches of two; in the first batch its column also
holds "x" and is inferred textual, in the second batch the column is
inferred numeric, so the two copies clean to different cell values, both
pass the fingerprint index, and the output file serializes the row "1"
twice — the batch decomposition changed the surviving copies. -/
theorem global_dedup_counterexample :
    ((writtenRows (clean_csv demoHash noDateParse true ["v"]
        [[["1"], ["x"]], [["1"]]] none)).map (fun r => r.map csvCell)).count
      ["1"] = 2 := by decide

/-- C1 amended: over cleaned batches — that is, whenever every copy of a
duplicated row is presented to the dedup filter with identical cell values,
which per-batch dtype inference does not always grant — and under a
fingerprint with no collisions among the input rows, the engine writes
exactly the first global occurrence of every distinct not-all-missing row:
the output rows are dedupFirst of the concatenated batches, independent of
the batch decomposition, so K exact copies leave exactly one survivor. -/
theorem global_dedup_first_occurrence (fp : List Cell → Int) (ov : Bool)
    (nh : List String) (chunks : List (List (List Cell)))
    (hinj : ∀ r1 ∈ chunks.flatten, ∀ r2 ∈ chunks.flatten,
      fp r1 = fp r2 → r1 = r2) :
    writtenRows (engineRun fp ov nh chunks { seen := [], file := none }) =
      dedupFirst (chunks.flatten.filter (fun r => !rowAllMissing r)) := by
  have hcore := engineRun_written_core fp ov nh chunks
    { seen := [], file := none } [] chunks.flatten rfl
    (fun r hr => absurd hr (List.not_mem_nil r))
    (fun _ hr => hr) hinj
    (fun r _ => by simp)
  rw [hcore, flatten_map_filter]
  rfl

/-- C1 witness: a duplicated single-cell text row scattered over two
batches, cleaned stably, leaves exactly one surviving copy. -/
theorem global_dedup_first_occurrence_witness :
    writtenRows (engineRun demoHash true ["v"]
        [[[Cell.str "a"]], [[Cell.str "a"], [Cell.str "b"]]]
        { seen := [], file := none }) =
      [[Cell.str "a"], [Cell.str "b"]] :=
  (global_dedup_first_occurrence demoHash true ["v"]
      [[[Cell.str "a"]], [[Cell.str "a"], [Cell.str "b"]]]
      (by decide)).trans (by decide)

/-- C6 counterexample: two identical raw input rows, each holding the
missing marker in one of two columns after cleaning; the cleaned row is
missing in some but not all columns, yet only one copy reaches the output,
so the second of the two input rows is absent — being partially missing
does not guarantee presence once deduplication runs. -/
theorem row_drop_counterexample :
    (writtenRows (clean_csv demoHash noDateParse true ["a", "b"]
        [[[" x", ""], [" x", ""]]] none)).length = 1 ∧
      cleanRows noDateParse ["a", "b"] [[" x", ""], [" x", ""]] =
        [[Cell.str "x", Cell.missing], [Cell.str "x", Cell.missing]] ∧
      rowAllMissing [Cell.str "x", Cell.missing] = false := by decide

/-- C6 amended: a row whose cells are all missing never reaches the
output; a row missing in only some columns is never removed by the
row-drop rule — under a collision-free fingerprint its first occurrence is
always written — but later exact duplicates of it are removed by the
duplicate filter, not by the row-drop rule. -/
theorem row_drop_rule (fp : List Cell → Int) (ov : Bool)
    (nh : List String) (chunks : List (List (List Cell))) :
    (∀ r ∈ writtenRows
        (engineRun fp ov nh chunks { seen := [], file := none }),
      rowAllMissing r = false) ∧
      ((∀ r1 ∈ chunks.flatten, ∀ r2 ∈ chunks.flatten,
          fp r1 = fp r2 → r1 = r2) →
        ∀ r ∈ chunks.flatten, rowAllMissing r = false →
          r ∈ writtenRows
            (engineRun fp ov nh chunks { seen := [], file := none })) := by
  constructor
  · exact foldl_invariant (engineStep fp ov nh) WrittenClean
      (fun a b ha => engineStep_writtenClean fp ov nh a b ha)
      chunks { seen := [], file := none }
      (fun r hr => absurd hr (List.not_mem_nil r))
  · intro hinj r hr hnm
    have hcore := engineRun_written_core fp ov nh chunks
      { seen := [], file := none } [] chunks.flatten rfl
      (fun x hx => absurd hx (List.not_mem_nil x))
      (fun _ hx => hx) hinj
      (fun x _ => by simp)
    rw [hcore]
    refine List.mem_append_right _ ?_
    rw [mem_dedupFirstAux, flatten_map_filter]
    exact ⟨List.mem_filter.mpr ⟨hr, by simp [hnm]⟩,
      List.not_mem_nil r⟩

/-- C6 witness: a partially missing row is present in the output of a run
over one batch. -/
theorem row_drop_rule_witness :
    [Cell.missing, Cell.str "x"] ∈ writtenRows
      (engineRun demoHash true ["a", "b"]
        [[[Cell.missing, Cell.str "x"]]] { seen := [], file := none }) :=
  (row_drop_rule demoHash true ["a", "b"]
      [[[Cell.missing, Cell.str "x"]]]).2 (by decide)
    [Cell.missing, Cell.str "x"] (by decide) (by decide)

/-- C3: when the CLI entry point is invoked with the overwrite flag on an
existing output file, os.remove deletes the file before any batch runs, so
the run is exactly a fresh run and the final file holds at most one header
line — this run's — followed by this run's surviving rows only; without
the overwrite flag the existing file is only extended by data rows, its
header never rewritten. -/
theorem overwrite_semantics (fp : List Cell → Int)
    (dp : String → Option Int) (rh : List String)
    (chunks : List (List (List String))) (c : List OutLine) :
    (mainClean fp dp true rh chunks (some c) =
        clean_csv fp dp true rh chunks none) ∧
      FreshShape (rh.map normalize_column_name)
        (mainClean fp dp true rh chunks (some c)) ∧
      AppendShape c (mainClean fp dp false rh chunks (some c)) := by
  refine ⟨rfl, ?_, ?_⟩
  · show FreshShape (rh.map normalize_column_name)
      (clean_csv fp dp true rh chunks none)
    exact foldl_invariant (processChunk fp dp true rh)
      (FreshShape (rh.map normalize_column_name))
      (fun a b ha => engineStep_freshShape fp true
        (rh.map normalize_column_name) a (cleanRows dp rh b) ha)
      chunks { seen := [], file := none } (Or.inl rfl)
  · show AppendShape c (clean_csv fp dp false rh chunks (some c))
    exact foldl_invariant (processChunk fp dp false rh)
      (AppendShape c)
      (fun a b ha => engineStep_appendShape fp false
        (rh.map normalize_column_name) c a (cleanRows dp rh b) ha)
      chunks { seen := [], file := some c } ⟨[], by simp⟩

/-- C5 counterexample: a run over a pre-existing output file (overwrite
not requested) writes its first — and only — batch with no header line:
the two lines of the old file are kept and exactly one data row is
appended, so the first batch ever written by this run did not write a
header. -/
theorem single_header_counterexample :
    (clean_csv demoHash noDateParse false ["v"] [[["b"]]]
        (some [OutLine.headerLine ["v"],
          OutLine.rowLine [Cell.str "old"]])).file =
      some [OutLine.headerLine ["v"], OutLine.rowLine [Cell.str "old"],
        OutLine.rowLine [Cell.str "b"]] ∧
      countHeaderLines
        (((clean_csv demoHash noDateParse false ["v"] [[["b"]]]
          (some [OutLine.headerLine ["v"],
            OutLine.rowLine [Cell.str "old"]])).file.getD []).drop 2) = 0 ∧
      (((clean_csv demoHash noDateParse false ["v"] [[["b"]]]
          (some [OutLine.headerLine ["v"],
            OutLine.rowLine [Cell.str "old"]])).file.getD []).drop 2) ≠
        [] := by decide

/-- C5 amended: for every run that starts with no existing output file,
the file either never comes into being (no batch produced new rows) or
consists of exactly one header line — written together with the first
written batch — at the top, followed by data rows only; every later batch
write appends data rows only.  A run onto a pre-existing file writes no
header at all (see the counterexample). -/
theorem single_header_at_top (fp : List Cell → Int)
    (dp : String → Option Int) (ov : Bool) (rh : List String)
    (chunks : List (List (List String))) :
    (clean_csv fp dp ov rh chunks none).file = none ∨
      ∃ rs : List (List Cell),
        (clean_csv fp dp ov rh chunks none).file =
          some (OutLine.headerLine (rh.map normalize_column_name) ::
            rs.map OutLine.rowLine) ∧
        countHeaderLines
          (OutLine.headerLine (rh.map normalize_column_name) ::
            rs.map OutLine.rowLine) = 1 := by
  have hshape : FreshShape (rh.map normalize_column_name)
      (clean_csv fp dp ov rh chunks none) :=
    foldl_invariant (processChunk fp dp ov rh)
      (FreshShape (rh.map normalize_column_name))
      (fun a b ha => engineStep_freshShape fp ov
        (rh.map normalize_column_name) a (cleanRows dp rh b) ha)
      chunks { seen := [], file := none } (Or.inl rfl)
  rcases hshape with hn | ⟨rs, hs⟩
  · exact Or.inl hn
  · refine Or.inr ⟨rs, hs, ?_⟩
    simp [countHeaderLines, countHeaderLines_map_rowLine]

/-- C8: along one run of clean_csv started with an empty index, after any
number of batches the seen_hashes index never loses an entry when the next
batch is processed, the index membership coincides exactly with the
fingerprints of the rows written to the output so far, and the rows
appended by the next batch are exactly those batch survivors whose
fingerprint was absent from the index when the batch's dedup step
started. -/
theorem fingerprint_index_invariant (fp : List Cell → Int)
    (dp : String → Option Int) (ov : Bool) (rh : List String)
    (chunks : List (List (List String))) (i : Nat) :
    (∀ h ∈ (clean_csv fp dp ov rh (chunks.take i) none).seen,
        h ∈ (clean_csv fp dp ov rh (chunks.take (i + 1)) none).seen) ∧
      IndexMatches fp (clean_csv fp dp ov rh (chunks.take i) none) ∧
      writtenRows (clean_csv fp dp ov rh (chunks.take (i + 1)) none) =
        writtenRows (clean_csv fp dp ov rh (chunks.take i) none) ++
          newsOf fp (clean_csv fp dp ov rh (chunks.take i) none)
            (cleanRows dp rh (chunks.getD i [])) := by
  have hstep := clean_csv_take_succ fp dp ov rh chunks none i
  refine ⟨?_, ?_, ?_⟩
  · intro h hh
    rw [hstep, engineStep_seen_mem]
    exact Or.inr hh
  · exact foldl_invariant (processChunk fp dp ov rh) (IndexMatches fp)
      (fun a b ha => engineStep_indexMatches fp ov
        (rh.map normalize_column_name) a (cleanRows dp rh b) ha)
      (chunks.take i) { seen := [], file := none }
      (fun v => by simp [writtenRows, dataRowsOf])
  · rw [hstep, engineStep_writtenRows]

/-- C8 witness: with a concrete two-batch input, the fingerprint written
by the first batch is still in the index after the second batch, and the
index after the first batch matches the written rows. -/
theorem fingerprint_index_invariant_witness :
    demoHash [Cell.intv 1] ∈
        (clean_csv demoHash noDateParse true ["v"]
          ([[["1"]], [["1"], ["2"]]].take 2) none).seen ∧
      (demoHash [Cell.intv 1] ∈
          (clean_csv demoHash noDateParse true ["v"]
            ([[["1"]], [["1"], ["2"]]].take 1) none).seen ↔
        ∃ r ∈ writtenRows (clean_csv demoHash noDateParse true ["v"]
            ([[["1"]], [["1"], ["2"]]].take 1) none),
          demoHash r = demoHash [Cell.intv 1]) :=
  ⟨(fingerprint_index_invariant demoHash noDateParse true ["v"]
      [[["1"]], [["1"], ["2"]]] 1).1 (demoHash [Cell.intv 1]) (by decide),
   (fingerprint_index_invariant demoHash noDateParse true ["v"]
      [[["1"]], [["1"], ["2"]]] 1).2.1 (demoHash [Cell.intv 1])⟩

end CleanCsv
